import Mathlib

/-! Verification of `internal/model/message.go` of chatlog.

A shallow embedding of `MessageV3.Wrap`, `ParseBytesExtra` and `Message.PlainText`,
followed by theorems about them.

Conventions of the embedding:

* a Go `string` and a Go `[]byte` are both finite byte sequences, `GoString`;
  the conversion `string(b)` is therefore the identity;
* Go integers (`int`, `int64`) are `Int`; no arithmetic is done on them in this file of
  the program, so no wrap-around is involved;
* a Go pointer that may be nil (`*MediaMessage`, the `map[int]string` returned by
  `ParseBytesExtra`) is an `Option`;
* code that `message.go` calls but that lives elsewhere (the LZ4 codec, the media resolver,
  the Protocol-Buffers decoder, the time formatter, the path separator of the platform) is
  collected in `Env`, and every theorem quantifies over it;
* a run-time panic of Go is an explicit outcome, `WrapResult.panicNilDereference`.
-/

namespace Chatlog

/-! ## Byte strings and the library functions used by `message.go` -/

/-- A Go `string` or `[]byte`: a finite sequence of bytes. -/
abbrev GoString := List Nat

/-- UTF-8 encoding of one Unicode scalar value, the encoding Go uses for string literals. -/
def utf8EncodeChar (c : Nat) : GoString :=
  if c < 128 then [c]
  else if c < 2048 then [192 + c / 64, 128 + c % 64]
  else if c < 65536 then [224 + c / 4096, 128 + c / 64 % 64, 128 + c % 64]
  else [240 + c / 262144, 128 + c / 4096 % 64, 128 + c / 64 % 64, 128 + c % 64]

/-- UTF-8 encoding of a sequence of characters. -/
def utf8Encode : List Char → GoString
  | [] => []
  | c :: cs => utf8EncodeChar c.toNat ++ utf8Encode cs

/-- The bytes of a Go string literal. -/
def lit (s : String) : GoString := utf8Encode s.data

/-- The byte `'/'`. -/
def slash : Nat := 47

/-- Go `strings.HasSuffix(s, suffix)`:
`len(s) >= len(suffix) && s[len(s)-len(suffix):] == suffix`. -/
def HasSuffix (s suffix : GoString) : Bool :=
  decide (s.length ≥ suffix.length) && decide (s.drop (s.length - suffix.length) = suffix)

/-- Worker of `Split`: `cur` holds, reversed, the bytes of the segment being read. -/
def splitAux (sep : Nat) : GoString → GoString → List GoString
  | [], cur => [cur.reverse]
  | c :: s, cur =>
    if c = sep then cur.reverse :: splitAux sep s [] else splitAux sep s (c :: cur)

/-- Go `strings.Split(s, sep)` for a separator of one byte (the program only splits on
`"/"`): the segments of `s` between the occurrences of `sep`, in order; always at least one
segment. -/
def Split (s : GoString) (sep : Nat) : List GoString := splitAux sep s []

/-- Go `strings.Join(elems, sep)`. -/
def Join : List GoString → GoString → GoString
  | [], _ => []
  | [a], _ => a
  | a :: b :: rest, sep => a ++ sep ++ Join (b :: rest) sep

/-- Go `strings.Builder`: the bytes written so far. -/
abbrev Builder := GoString

/-- Go `(*strings.Builder).WriteString`. -/
def WriteString (buf : Builder) (s : GoString) : Builder := buf ++ s

/-- Go `time.Time`, as far as `message.go` is concerned: seconds and nanoseconds since the
Unix epoch. -/
structure Time where
  sec : Int
  nsec : Int
deriving DecidableEq

/-- Go `time.Unix(sec, nsec)`: nanoseconds outside `[0, 1e9)` are carried into the
seconds. -/
def Unix (sec nsec : Int) : Time :=
  if nsec < 0 ∨ nsec ≥ 1000000000 then
    let n := Int.tdiv nsec 1000000000
    let sec := sec + n
    let nsec := nsec - n * 1000000000
    if nsec < 0 then { sec := sec - 1, nsec := nsec + 1000000000 }
    else { sec := sec, nsec := nsec }
  else { sec := sec, nsec := nsec }

/-! ## Data model -/

/-- The constant `WeChatV3`. -/
def WeChatV3 : GoString := lit "wechatv3"

/-- Modelled from the spec: the struct `MediaMessage` is declared outside `message.go`.
The spec gives the media variant a resolved file path and a host bound at rendering time;
`Payload` stands for all its remaining, type-specific fields, which `message.go` never
reads or writes. -/
structure MediaMessage where
  MediaPath : GoString
  Host : GoString
  Payload : GoString
deriving DecidableEq

/-- Modelled from the spec: `(*MediaMessage).SetHost` is defined outside `message.go`;
it binds `host` into the media variant. -/
def SetHost (mm : MediaMessage) (host : GoString) : MediaMessage :=
  { mm with Host := host }

/-- The struct `Message`. -/
structure Message where
  Sequence : Int
  CreateTime : Time
  TalkerID : Int
  Talker : GoString
  IsSender : Int
  Type_ : Int
  SubType : Int
  Content : GoString
  CompressContent : GoString
  IsChatRoom : Bool
  ChatRoomSender : GoString
  DisplayName : GoString
  ChatRoomName : GoString
  MediaMessage : Option MediaMessage
  Version : GoString
deriving DecidableEq

/-- The struct `MessageV3`: one raw row of the `MSG` table. -/
structure MessageV3 where
  Sequence : Int
  CreateTime : Int
  TalkerID : Int
  StrTalker : GoString
  IsSender : Int
  Type_ : Int
  SubType : Int
  StrContent : GoString
  CompressContent : GoString
  BytesExtra : GoString
deriving DecidableEq

/-- One item of `wxproto.BytesExtra.Items`: an integer tag and a string value. The
conversion `int(item.Type)` of `ParseBytesExtra` preserves the value of the tag, so the tag
is kept as an `Int`. -/
structure BytesExtraItem where
  Type_ : Int
  Value : GoString
deriving DecidableEq

/-- The decoded message `wxproto.BytesExtra`, as far as `message.go` reads it. A nil
`Items` slice of Go is the empty list: the decoder appends to a nil slice, so the slice
is nil exactly when no item was decoded. -/
structure BytesExtra where
  Items : List BytesExtraItem
deriving DecidableEq

/-- The code `message.go` depends on and that lives outside it. A failure (a non-nil
`err`) is `none`. Modelled from the spec: the method `(*MediaMessage).String` is defined
outside `message.go`; it is taken to read the media variant without writing to it (the spec:
rendering has no side effects beyond reading `host` into the media variant). -/
structure Env where
  -- the platform constant filepath.Separator
  Separator : Nat
  -- the function lz4.Decompress
  Decompress : GoString → Option GoString
  -- the function NewMediaMessage(_type, data)
  NewMediaMessage : Int → GoString → Option MediaMessage
  -- the item list proto.Unmarshal decodes from a non-empty buffer
  DecodeItems : GoString → Option (List BytesExtraItem)
  -- the method time.Time.Format(layout), in the local time zone
  Format : Time → GoString → GoString
  -- the method (*MediaMessage).String
  MediaString : MediaMessage → GoString

/-- Go `filepath.ToSlash(path)`: `path` itself when the separator is `'/'`, else `path`
with every separator replaced by `'/'`. -/
def ToSlash (E : Env) (path : GoString) : GoString :=
  if E.Separator = slash then path
  else path.map (fun b => if b = E.Separator then slash else b)

/-- Modelled from the spec: `proto.Unmarshal` and the generated type `wxproto.BytesExtra`
are outside `message.go`. An empty buffer holds no field and decodes to the zero message
(the spec: the decoder returns absent on empty bytes); for a non-empty buffer the outcome
is `Env.DecodeItems`. -/
def Unmarshal (E : Env) (b : GoString) : Option BytesExtra :=
  if b = [] then some { Items := [] }
  else (E.DecodeItems b).map (fun items => { Items := items })

/-- A Go `map[int]string` that is not nil: its entries, with pairwise distinct keys. -/
abbrev GoMap := List (Int × GoString)

/-- The map assignment `m[k] = v`: overwrites the entry of `k` when there is one. -/
def GoMap.set : GoMap → Int → GoString → GoMap
  | [], k, v => [(k, v)]
  | (k', v') :: m, k, v => if k' = k then (k, v) :: m else (k', v') :: GoMap.set m k v

/-- The two-valued map lookup `v, ok := m[k]`. -/
def GoMap.get? : GoMap → Int → Option GoString
  | [], _ => none
  | (k', v') :: m, k => if k' = k then some v' else GoMap.get? m k

/-- The map lookup `m[k]`: the zero value `""` when `k` has no entry. -/
def GoMap.get (m : GoMap) (k : Int) : GoString :=
  match GoMap.get? m k with
  | some v => v
  | none => []

/-- The keys of a map. -/
def GoMap.keys (m : GoMap) : List Int := m.map Prod.fst

/-! ## `ParseBytesExtra` -/

/-- The loop `for _, item := range pbMsg.Items { ret[int(item.Type)] = item.Value }`. -/
def fillMap : List BytesExtraItem → GoMap → GoMap
  | [], ret => ret
  | item :: items, ret => fillMap items (GoMap.set ret item.Type_ item.Value)

/-- The function `ParseBytesExtra`; `none` is the nil map. -/
def ParseBytesExtra (E : Env) (b : GoString) : Option GoMap :=
  match Unmarshal E b with
  | none => none
  | some pbMsg =>
    if pbMsg.Items = [] then none
    else some (fillMap pbMsg.Items [])

/-! ## `MessageV3.Wrap` -/

/-- How a call of `Wrap` ends: it returns a `Message`, or the Go runtime panics on the
assignment through the nil pointer `_m.MediaMessage`. -/
inductive WrapResult where
  | returned (m : Message)
  | panicNilDereference
deriving DecidableEq

/-- The method `(*MessageV3).Wrap`. -/
def Wrap (E : Env) (m : MessageV3) : WrapResult :=
  let _m : Message :=
    { Sequence := m.Sequence
      CreateTime := Unix m.CreateTime 0
      TalkerID := m.TalkerID
      Talker := m.StrTalker
      IsSender := m.IsSender
      Type_ := m.Type_
      SubType := m.SubType
      Content := m.StrContent
      CompressContent := m.CompressContent
      IsChatRoom := false
      ChatRoomSender := []
      DisplayName := []
      ChatRoomName := []
      MediaMessage := none
      Version := WeChatV3 }
  let _m := { _m with IsChatRoom := HasSuffix _m.Talker (lit "@chatroom") }
  let _m :=
    if _m.Type_ = 49 then
      match E.Decompress m.CompressContent with
      | some b => { _m with Content := b }
      | none => _m
    else _m
  let _m :=
    if _m.Type_ ≠ 1 then
      match E.NewMediaMessage _m.Type_ _m.Content with
      | some mediaMessage => { _m with MediaMessage := some mediaMessage }
      | none => _m
    else _m
  if m.BytesExtra.length ≠ 0 then
    match ParseBytesExtra E m.BytesExtra with
    | some bytesExtra =>
      let _m := if _m.IsChatRoom then { _m with ChatRoomSender := bytesExtra.get 1 } else _m
      if _m.Type_ = 43 then
        let path := bytesExtra.get 4
        let parts := Split (ToSlash E path) slash
        let path := if parts.length > 1 then Join (parts.drop 1) (lit "/") else path
        match _m.MediaMessage with
        | some mediaMessage =>
          WrapResult.returned
            { _m with MediaMessage := some { mediaMessage with MediaPath := path } }
        | none => WrapResult.panicNilDereference
      else WrapResult.returned _m
    | none => WrapResult.returned _m
  else WrapResult.returned _m

/-- The rows on which `Wrap` reaches the assignment `_m.MediaMessage.MediaPath = path` with
`_m.MediaMessage` nil: a video row (type 43) whose content the media resolver rejected and
whose non-empty auxiliary bytes decode to a map. -/
def nilDereferenceCase (E : Env) (row : MessageV3) : Bool :=
  decide (row.Type_ = 43) && decide (row.BytesExtra ≠ []) &&
    (ParseBytesExtra E row.BytesExtra).isSome && (E.NewMediaMessage 43 row.StrContent).isNone

/-! ## `Message.PlainText` -/

/-- The method `(*Message).PlainText`. It returns the text and, because the call writes
`host` through the pointer `m.MediaMessage`, the `Message` as it is after the call. -/
def PlainText (E : Env) (m : Message) (showChatRoom : Bool) (host : GoString) :
    GoString × Message :=
  let buf : Builder := []
  let talker := m.Talker
  let talker :=
    if m.IsSender = 1 then lit "我"
    else if m.IsChatRoom then m.ChatRoomSender
    else talker
  let buf :=
    if m.DisplayName ≠ [] then
      WriteString (WriteString (WriteString (WriteString buf m.DisplayName) (lit "(")) talker)
        (lit ")")
    else WriteString buf talker
  let buf := WriteString buf (lit " ")
  let buf :=
    if m.IsChatRoom && showChatRoom then
      let buf := WriteString buf (lit "[")
      let buf :=
        if m.ChatRoomName ≠ [] then
          WriteString (WriteString (WriteString (WriteString buf m.ChatRoomName) (lit "("))
            m.Talker) (lit ")")
        else WriteString buf m.Talker
      WriteString buf (lit "] ")
    else buf
  let buf := WriteString buf (E.Format m.CreateTime (lit "2006-01-02 15:04:05"))
  let buf := WriteString buf (lit "\n")
  match m.MediaMessage with
  | some mediaMessage =>
    let mediaMessage := SetHost mediaMessage host
    let buf := WriteString buf (E.MediaString mediaMessage)
    let buf := WriteString buf (lit "\n")
    (buf, { m with MediaMessage := some mediaMessage })
  | none =>
    let buf := WriteString buf m.Content
    let buf := WriteString buf (lit "\n")
    (buf, m)

/-! ## The steps of `Wrap` in closed form (used by the proofs) -/

/-- The content after the decompression step of `Wrap`. -/
def contentAfterDecompress (E : Env) (row : MessageV3) : GoString :=
  if row.Type_ = 49 then
    match E.Decompress row.CompressContent with
    | some b => b
    | none => row.StrContent
  else row.StrContent

/-- The media variant after the resolver step of `Wrap`. -/
def resolvedMedia (E : Env) (row : MessageV3) : Option MediaMessage :=
  if row.Type_ ≠ 1 then E.NewMediaMessage row.Type_ (contentAfterDecompress E row) else none

/-- The `Message` that `Wrap` has built when it reaches the auxiliary bytes. -/
def wrapBase (E : Env) (row : MessageV3) : Message :=
  { Sequence := row.Sequence
    CreateTime := Unix row.CreateTime 0
    TalkerID := row.TalkerID
    Talker := row.StrTalker
    IsSender := row.IsSender
    Type_ := row.Type_
    SubType := row.SubType
    Content := contentAfterDecompress E row
    CompressContent := row.CompressContent
    IsChatRoom := HasSuffix row.StrTalker (lit "@chatroom")
    ChatRoomSender := []
    DisplayName := []
    ChatRoomName := []
    MediaMessage := resolvedMedia E row
    Version := WeChatV3 }

/-- The path `Wrap` computes from the value at tag 4. -/
def videoPath (E : Env) (path : GoString) : GoString :=
  if (Split (ToSlash E path) slash).length > 1 then
    Join ((Split (ToSlash E path) slash).drop 1) (lit "/")
  else path

/-- The effect of decoded auxiliary metadata on the `Message` built so far. -/
def applyBytesExtra (E : Env) (bytesExtra : GoMap) (m : Message) : WrapResult :=
  if m.Type_ = 43 then
    match m.MediaMessage with
    | some mediaMessage =>
      WrapResult.returned
        { m with
          ChatRoomSender := if m.IsChatRoom then bytesExtra.get 1 else m.ChatRoomSender
          MediaMessage := some { mediaMessage with MediaPath := videoPath E (bytesExtra.get 4) } }
    | none => WrapResult.panicNilDereference
  else
    WrapResult.returned
      { m with ChatRoomSender := if m.IsChatRoom then bytesExtra.get 1 else m.ChatRoomSender }

/-- The `chatRoomSender` of the `Message` that `Wrap` returns. -/
def senderAfterExtra (E : Env) (row : MessageV3) : GoString :=
  if row.BytesExtra = [] then []
  else match ParseBytesExtra E row.BytesExtra with
    | some bytesExtra =>
      if HasSuffix row.StrTalker (lit "@chatroom") then bytesExtra.get 1 else []
    | none => []

/-- The `mediaMessage` of the `Message` that `Wrap` returns. -/
def mediaAfterExtra (E : Env) (row : MessageV3) : Option MediaMessage :=
  if row.BytesExtra = [] then resolvedMedia E row
  else match ParseBytesExtra E row.BytesExtra with
    | some bytesExtra =>
      if row.Type_ = 43 then
        (resolvedMedia E row).map
          (fun mediaMessage => { mediaMessage with MediaPath := videoPath E (bytesExtra.get 4) })
      else resolvedMedia E row
    | none => resolvedMedia E row

/-! ## Sample inputs -/

/-- A sample environment: a Unix path separator, a codec that accepts exactly the buffers
starting with byte 4 (yielding the rest), a resolver that accepts exactly the contents starting
with `<`, and a decoder given by a table on four buffers. -/
def sampleEnv : Env where
  Separator := 47
  Decompress := fun b =>
    match b with
    | 4 :: rest => some rest
    | _ => none
  NewMediaMessage := fun _ data =>
    if data.head? = some 60 then
      some { MediaPath := lit "from/content.mp4", Host := [], Payload := data }
    else none
  DecodeItems := fun b =>
    if b = [1] then some [{ Type_ := 1, Value := lit "bob" }]
    else if b = [2] then some [{ Type_ := 7, Value := lit "a" }, { Type_ := 7, Value := lit "b" }]
    else if b = [3] then some [{ Type_ := 4, Value := lit "root/sub/file.mp4" }]
    else if b = [4] then some [{ Type_ := 4, Value := lit "file.mp4" }]
    else if b = [5] then some []
    else none
  Format := fun t _ => if t.sec = 0 then lit "1970-01-01 00:00:00" else lit "2023-11-14 22:13:20"
  MediaString := fun mm => lit "![media](" ++ mm.Host ++ lit "/" ++ mm.MediaPath ++ lit ")"

/-- A received text message in a chat room, with sender `bob` in the auxiliary bytes. -/
def rowChatRoomText : MessageV3 where
  Sequence := 1700000000001
  CreateTime := 1700000000
  TalkerID := 3
  StrTalker := lit "7001@chatroom"
  IsSender := 0
  Type_ := 1
  SubType := 0
  StrContent := lit "hi"
  CompressContent := []
  BytesExtra := [1]

/-- A video message whose content the resolver accepts and whose auxiliary bytes carry the
path `root/sub/file.mp4` at tag 4. -/
def rowVideo : MessageV3 :=
  { rowChatRoomText with
    StrTalker := lit "alice", Type_ := 43, StrContent := lit "<msg/>", BytesExtra := [3] }

/-- A video message whose content the resolver rejects and whose auxiliary bytes decode. -/
def rowVideoBadContent : MessageV3 :=
  { rowVideo with StrContent := lit "not xml" }

/-- A rich-content message (type 49) with a compressed body the codec accepts. -/
def rowRich : MessageV3 :=
  { rowChatRoomText with
    StrTalker := lit "alice", Type_ := 49, StrContent := lit "raw",
    CompressContent := 4 :: lit "<appmsg/>", BytesExtra := [] }

/-- A rich-content message (type 49) with a compressed body the codec rejects. -/
def rowRichCorrupt : MessageV3 :=
  { rowRich with CompressContent := [9, 9] }

/-- A video message in a chat room whose content the resolver accepts and whose auxiliary
bytes fail to decode. -/
def rowVideoUndecodable : MessageV3 :=
  { rowVideo with StrTalker := lit "7001@chatroom", BytesExtra := [9] }

/-- A video message whose content the resolver accepts and whose auxiliary bytes decode to
a map with tag 1 only. -/
def rowVideoNoPathTag : MessageV3 :=
  { rowVideo with BytesExtra := [1] }

/-- A video message in a chat room whose content the resolver rejects and whose auxiliary
bytes decode to a map with the sender `bob` at tag 1. -/
def rowChatRoomVideoBadContent : MessageV3 :=
  { rowVideoBadContent with StrTalker := lit "7001@chatroom", BytesExtra := [1] }

/-! ## Lemmas on the library functions -/

theorem lit_slash : lit "/" = [slash] := by decide

theorem HasSuffix_iff (s suffix : GoString) : HasSuffix s suffix = true ↔ suffix <:+ s := by
  unfold HasSuffix
  simp only [Bool.and_eq_true, decide_eq_true_eq, ge_iff_le]
  constructor
  · rintro ⟨_, h⟩
    have e : s.take (s.length - suffix.length) ++ s.drop (s.length - suffix.length) = s :=
      List.take_append_drop _ _
    rw [h] at e
    exact ⟨_, e⟩
  · rintro ⟨t, rfl⟩
    simp

theorem splitAux_not_mem (sep : Nat) (s cur : GoString) (h : sep ∉ s) :
    splitAux sep s cur = [cur.reverse ++ s] := by
  induction s generalizing cur with
  | nil => simp [splitAux]
  | cons c s ih =>
    have hc : c ≠ sep := fun e => h (by simp [e])
    have hs : sep ∉ s := fun e => h (by simp [e])
    simp [splitAux, hc, ih _ hs]

theorem splitAux_append (sep : Nat) (first rest cur : GoString) (h : sep ∉ first) :
    splitAux sep (first ++ sep :: rest) cur = (cur.reverse ++ first) :: splitAux sep rest [] := by
  induction first generalizing cur with
  | nil => simp [splitAux]
  | cons c s ih =>
    have hc : c ≠ sep := fun e => h (by simp [e])
    have hs : sep ∉ s := fun e => h (by simp [e])
    simp [splitAux, hc, ih _ hs]

theorem splitAux_ne_nil (sep : Nat) (s cur : GoString) : splitAux sep s cur ≠ [] := by
  induction s generalizing cur with
  | nil => simp [splitAux]
  | cons c s ih =>
    unfold splitAux
    split
    · simp
    · exact ih _

theorem Join_cons (a : GoString) (l : List GoString) (sep : GoString) (h : l ≠ []) :
    Join (a :: l) sep = a ++ sep ++ Join l sep := by
  cases l with
  | nil => exact absurd rfl h
  | cons b rest => rfl

theorem Join_splitAux (sep : Nat) (s cur : GoString) :
    Join (splitAux sep s cur) [sep] = cur.reverse ++ s := by
  induction s generalizing cur with
  | nil => simp [splitAux, Join]
  | cons c s ih =>
    unfold splitAux
    split
    · next h =>
      rw [Join_cons _ _ _ (splitAux_ne_nil _ _ _), ih]
      simp [h]
    · rw [ih]; simp

theorem Join_Split (s : GoString) (sep : Nat) : Join (Split s sep) [sep] = s := by
  simpa [Split] using Join_splitAux sep s []

theorem Split_not_mem (s : GoString) (sep : Nat) (h : sep ∉ s) : Split s sep = [s] := by
  simpa [Split] using splitAux_not_mem sep s [] h

theorem Split_append (first rest : GoString) (sep : Nat) (h : sep ∉ first) :
    Split (first ++ sep :: rest) sep = first :: Split rest sep := by
  simpa [Split] using splitAux_append sep first rest [] h

theorem exists_first_segment (s : GoString) (sep : Nat) (h : sep ∈ s) :
    ∃ first rest, s = first ++ sep :: rest ∧ sep ∉ first := by
  induction s with
  | nil => simp at h
  | cons c s ih =>
    by_cases hc : c = sep
    · exact ⟨[], s, by simp [hc], by simp⟩
    · have hs : sep ∈ s := by
        rcases List.mem_cons.mp h with e | e
        · exact absurd e.symm hc
        · exact e
      obtain ⟨first, rest, e, hn⟩ := ih hs
      refine ⟨c :: first, rest, by simp [e], ?_⟩
      simp only [List.mem_cons, not_or]
      exact ⟨fun e => hc e.symm, hn⟩

theorem Split_length_gt_one_iff (s : GoString) (sep : Nat) :
    1 < (Split s sep).length ↔ sep ∈ s := by
  constructor
  · intro h
    by_contra hn
    rw [Split_not_mem s sep hn] at h
    simp at h
  · intro h
    obtain ⟨first, rest, rfl, hn⟩ := exists_first_segment s sep h
    rw [Split_append _ _ _ hn]
    have := splitAux_ne_nil sep rest []
    cases hsp : Split rest sep with
    | nil => exact absurd hsp (by simpa [Split] using this)
    | cons a l => simp

/-! ## Lemmas on maps and on `ParseBytesExtra` -/

theorem GoMap.mem_keys_set (m : GoMap) (k : Int) (v : GoString) (t : Int) :
    t ∈ GoMap.keys (GoMap.set m k v) ↔ t = k ∨ t ∈ GoMap.keys m := by
  induction m with
  | nil => simp [GoMap.set, GoMap.keys]
  | cons e m ih =>
    obtain ⟨k', v'⟩ := e
    unfold GoMap.set
    split
    · next h => subst h; simp [GoMap.keys]
    · simp only [GoMap.keys, List.map_cons, List.mem_cons] at ih ⊢
      rw [ih]
      tauto

theorem GoMap.nodup_keys_set (m : GoMap) (k : Int) (v : GoString)
    (h : (GoMap.keys m).Nodup) : (GoMap.keys (GoMap.set m k v)).Nodup := by
  induction m with
  | nil => simp [GoMap.set, GoMap.keys]
  | cons e m ih =>
    obtain ⟨k', v'⟩ := e
    have hk : k' ∉ GoMap.keys m ∧ (GoMap.keys m).Nodup := by
      simpa [GoMap.keys] using h
    unfold GoMap.set
    split
    · next e => subst e; simpa [GoMap.keys] using h
    · next hne =>
      have h1 : k' ∉ GoMap.keys (GoMap.set m k v) := by
        rw [GoMap.mem_keys_set]
        rintro (e | e)
        · exact hne e
        · exact hk.1 e
      have h2 := ih hk.2
      simp only [GoMap.keys, List.map_cons, List.nodup_cons] at h1 h2 ⊢
      exact ⟨h1, h2⟩

theorem GoMap.get?_set (m : GoMap) (k : Int) (v : GoString) (t : Int) :
    GoMap.get? (GoMap.set m k v) t = if t = k then some v else GoMap.get? m t := by
  induction m with
  | nil =>
    by_cases h : t = k
    · simp [GoMap.set, GoMap.get?, h]
    · have h' : ¬ k = t := fun e => h e.symm
      simp [GoMap.set, GoMap.get?, h, h']
  | cons e m ih =>
    obtain ⟨k', v'⟩ := e
    unfold GoMap.set
    split
    · next e =>
      subst e
      by_cases h : t = k'
      · simp [GoMap.get?, h]
      · have h' : ¬ k' = t := fun e => h e.symm
        simp [GoMap.get?, h, h']
    · next hne =>
      by_cases h : t = k
      · subst h
        simp [GoMap.get?, hne, ih]
      · by_cases h2 : k' = t
        · simp [GoMap.get?, h2, h]
        · simp [GoMap.get?, h2, h, ih]

theorem GoMap.get?_isSome_iff (m : GoMap) (t : Int) :
    (GoMap.get? m t).isSome = true ↔ t ∈ GoMap.keys m := by
  induction m with
  | nil => simp [GoMap.get?, GoMap.keys]
  | cons e m ih =>
    obtain ⟨k', v'⟩ := e
    by_cases h : k' = t
    · simp [GoMap.get?, GoMap.keys, h]
    · have h' : ¬ t = k' := fun e => h e.symm
      simp only [GoMap.keys, List.map_cons, List.mem_cons] at ih ⊢
      simp [GoMap.get?, h, h', ih]

theorem fillMap_mem_keys (items : List BytesExtraItem) (ret : GoMap) (t : Int) :
    t ∈ GoMap.keys (fillMap items ret) ↔ (∃ it ∈ items, it.Type_ = t) ∨ t ∈ GoMap.keys ret := by
  induction items generalizing ret with
  | nil => simp [fillMap]
  | cons item items ih =>
    simp only [fillMap, ih, GoMap.mem_keys_set, List.mem_cons, exists_eq_or_imp]
    constructor
    · rintro (h | h | h)
      · exact Or.inl (Or.inr h)
      · exact Or.inl (Or.inl h.symm)
      · exact Or.inr h
    · rintro ((h | h) | h)
      · exact Or.inr (Or.inl h.symm)
      · exact Or.inl h
      · exact Or.inr (Or.inr h)

theorem fillMap_nodup_keys (items : List BytesExtraItem) (ret : GoMap)
    (h : (GoMap.keys ret).Nodup) : (GoMap.keys (fillMap items ret)).Nodup := by
  induction items generalizing ret with
  | nil => simpa [fillMap] using h
  | cons item items ih => exact ih _ (GoMap.nodup_keys_set _ _ _ h)

theorem fillMap_get?_of_not_mem (items : List BytesExtraItem) (ret : GoMap) (t : Int)
    (h : ∀ x ∈ items, x.Type_ ≠ t) : GoMap.get? (fillMap items ret) t = GoMap.get? ret t := by
  induction items generalizing ret with
  | nil => rfl
  | cons item items ih =>
    have h1 : ¬ t = item.Type_ := fun e => h item (by simp) e.symm
    have h2 : ∀ x ∈ items, x.Type_ ≠ t := fun x hx => h x (by simp [hx])
    simp [fillMap, ih _ h2, GoMap.get?_set, h1]

theorem fillMap_append (pre post : List BytesExtraItem) (ret : GoMap) :
    fillMap (pre ++ post) ret = fillMap post (fillMap pre ret) := by
  induction pre generalizing ret with
  | nil => rfl
  | cons item pre ih => simp [fillMap, ih]

theorem fillMap_get?_last (pre post : List BytesExtraItem) (it : BytesExtraItem) (ret : GoMap)
    (h : ∀ x ∈ post, x.Type_ ≠ it.Type_) :
    GoMap.get? (fillMap (pre ++ it :: post) ret) it.Type_ = some it.Value := by
  rw [fillMap_append]
  simp [fillMap, fillMap_get?_of_not_mem _ _ _ h, GoMap.get?_set]

theorem fillMap_ne_nil (items : List BytesExtraItem) (ret : GoMap) (h : items ≠ []) :
    fillMap items ret ≠ [] := by
  cases items with
  | nil => exact absurd rfl h
  | cons item items =>
    intro e
    have hk : item.Type_ ∈ GoMap.keys (fillMap (item :: items) ret) := by
      rw [fillMap_mem_keys]
      exact Or.inl ⟨item, by simp, rfl⟩
    rw [e] at hk
    simp [GoMap.keys] at hk

theorem ParseBytesExtra_nil (E : Env) : ParseBytesExtra E [] = none := by
  simp [ParseBytesExtra, Unmarshal]

theorem ParseBytesExtra_eq_some (E : Env) (b : GoString) (m : GoMap) :
    ParseBytesExtra E b = some m ↔
      ∃ items, Unmarshal E b = some { Items := items } ∧ items ≠ [] ∧ m = fillMap items [] := by
  unfold ParseBytesExtra
  cases h : Unmarshal E b with
  | none => simp
  | some pbMsg =>
    obtain ⟨items⟩ := pbMsg
    by_cases hi : items = []
    · simp [hi]
    · simp only [hi, if_false, Option.some.injEq, BytesExtra.mk.injEq]
      constructor
      · intro e; exact ⟨items, rfl, hi, e.symm⟩
      · rintro ⟨items', rfl, _, e⟩; exact e.symm

/-! ## A closed form of `Wrap` -/

theorem Wrap_eq (E : Env) (row : MessageV3) :
    Wrap E row =
      if row.BytesExtra = [] then WrapResult.returned (wrapBase E row)
      else match ParseBytesExtra E row.BytesExtra with
        | some bytesExtra => applyBytesExtra E bytesExtra (wrapBase E row)
        | none => WrapResult.returned (wrapBase E row) := by
  have key : ∀ (c : GoString) (r : Option MediaMessage),
      contentAfterDecompress E row = c → resolvedMedia E row = r →
      (if row.Type_ = 49 then E.Decompress row.CompressContent else none).getD row.StrContent = c →
      (if row.Type_ ≠ 1 then E.NewMediaMessage row.Type_ c else none) = r →
      Wrap E row =
        if row.BytesExtra = [] then WrapResult.returned (wrapBase E row)
        else match ParseBytesExtra E row.BytesExtra with
          | some bytesExtra => applyBytesExtra E bytesExtra (wrapBase E row)
          | none => WrapResult.returned (wrapBase E row) := by
    intro c r hc hr hc' hr'
    unfold Wrap applyBytesExtra wrapBase
    rw [hc, hr]
    cases hB : row.BytesExtra with
    | nil =>
      by_cases h49 : row.Type_ = 49
      · cases hD : E.Decompress row.CompressContent <;> cases r <;>
          simp_all
      · by_cases h1 : row.Type_ = 1 <;> cases r <;> simp_all
    | cons b bs =>
      cases hP : ParseBytesExtra E (b :: bs) <;>
      cases hS : HasSuffix row.StrTalker (lit "@chatroom") <;>
      by_cases h49 : row.Type_ = 49 <;>
      by_cases h1 : row.Type_ = 1 <;>
      by_cases h43 : row.Type_ = 43 <;>
      cases hD : E.Decompress row.CompressContent <;>
      cases r <;>
      simp_all [videoPath]
  exact key _ _ rfl rfl (by
    unfold contentAfterDecompress
    by_cases h49 : row.Type_ = 49
    · cases hD : E.Decompress row.CompressContent <;> simp [h49, hD]
    · simp [h49]) rfl

theorem Wrap_of_type_ne_43 (E : Env) (row : MessageV3) (h : row.Type_ ≠ 43) :
    ∃ m, Wrap E row = WrapResult.returned m ∧
      m.Content = contentAfterDecompress E row ∧ m.MediaMessage = resolvedMedia E row ∧
      m.IsChatRoom = HasSuffix row.StrTalker (lit "@chatroom") ∧ m.Talker = row.StrTalker ∧
      m.CreateTime = Unix row.CreateTime 0 ∧ m.IsSender = row.IsSender ∧
      m.DisplayName = [] ∧ m.ChatRoomName = [] ∧
      m.ChatRoomSender =
        (if row.BytesExtra = [] then []
         else match ParseBytesExtra E row.BytesExtra with
          | some bytesExtra => if m.IsChatRoom then bytesExtra.get 1 else []
          | none => []) := by
  rw [Wrap_eq]
  by_cases hB : row.BytesExtra = []
  · refine ⟨wrapBase E row, by simp only [hB, if_true], ?_⟩
    simp [wrapBase, hB]
  · cases hP : ParseBytesExtra E row.BytesExtra with
    | none =>
      refine ⟨wrapBase E row, by simp only [hB, if_false], ?_⟩
      simp [wrapBase, hB, hP]
    | some mp =>
      have hT : (wrapBase E row).Type_ ≠ 43 := h
      refine ⟨{ wrapBase E row with
        ChatRoomSender :=
          if (wrapBase E row).IsChatRoom then mp.get 1 else (wrapBase E row).ChatRoomSender },
        by simp only [hB, if_false, applyBytesExtra, hT], ?_⟩
      simp [wrapBase, hB, hP]

theorem Wrap_returned_iff (E : Env) (row : MessageV3) :
    (∃ m, Wrap E row = WrapResult.returned m) ↔ nilDereferenceCase E row = false := by
  by_cases hT : row.Type_ = 43
  · rw [Wrap_eq]
    unfold nilDereferenceCase
    have hT' : (wrapBase E row).Type_ = 43 := hT
    have hM : (wrapBase E row).MediaMessage = E.NewMediaMessage 43 row.StrContent := by
      simp [wrapBase, resolvedMedia, contentAfterDecompress, hT]
    by_cases hB : row.BytesExtra = []
    · simp [hB, hT]
    · cases hP : ParseBytesExtra E row.BytesExtra with
      | none => simp [hT, hB]
      | some mp =>
        cases hR : E.NewMediaMessage 43 row.StrContent with
        | none => simp [hT, hB, applyBytesExtra, hT', hM, hR]
        | some mm => simp [hT, hB, applyBytesExtra, hT', hM, hR]
  · obtain ⟨m, hm, _⟩ := Wrap_of_type_ne_43 E row hT
    simp [nilDereferenceCase, hT, hm]

theorem Wrap_panics_iff (E : Env) (row : MessageV3) :
    Wrap E row = WrapResult.panicNilDereference ↔ nilDereferenceCase E row = true := by
  have h := Wrap_returned_iff E row
  cases hW : Wrap E row with
  | returned m =>
    have : nilDereferenceCase E row = false := h.mp ⟨m, hW⟩
    simp [this]
  | panicNilDereference =>
    cases hn : nilDereferenceCase E row with
    | true => simp
    | false =>
      obtain ⟨m, hm⟩ := h.mpr hn
      rw [hW] at hm
      cases hm

theorem Wrap_isChatRoom_of_returned (E : Env) (row : MessageV3) (m : Message)
    (h : Wrap E row = WrapResult.returned m) :
    m.IsChatRoom = HasSuffix row.StrTalker (lit "@chatroom") := by
  rw [Wrap_eq] at h
  by_cases hB : row.BytesExtra = []
  · simp only [hB, if_true, WrapResult.returned.injEq] at h
    rw [← h]; rfl
  · simp only [hB, if_false] at h
    cases hP : ParseBytesExtra E row.BytesExtra with
    | none =>
      simp only [hP, WrapResult.returned.injEq] at h
      rw [← h]; rfl
    | some mp =>
      simp only [hP, applyBytesExtra] at h
      split at h
      · split at h
        · simp only [WrapResult.returned.injEq] at h
          rw [← h]; rfl
        · cases h
      · simp only [WrapResult.returned.injEq] at h
        rw [← h]; rfl

theorem GoMap.get_of_get? (m : GoMap) (k : Int) (v : GoString) (h : GoMap.get? m k = some v) :
    GoMap.get m k = v := by
  simp [GoMap.get, h]

theorem videoPath_of_append (E : Env) (p first rest : GoString)
    (h : ToSlash E p = first ++ slash :: rest) (hn : slash ∉ first) : videoPath E p = rest := by
  unfold videoPath
  rw [h, Split_append _ _ _ hn]
  have hne : Split rest slash ≠ [] := by simpa [Split] using splitAux_ne_nil slash rest []
  have hlen : (first :: Split rest slash).length > 1 := by
    cases hs : Split rest slash with
    | nil => exact absurd hs hne
    | cons a l => simp
  rw [if_pos hlen, lit_slash]
  simpa using Join_Split rest slash

theorem videoPath_of_not_mem (E : Env) (p : GoString) (h : slash ∉ ToSlash E p) :
    videoPath E p = p := by
  unfold videoPath
  rw [Split_not_mem _ _ h]
  simp

theorem Wrap_video (E : Env) (row : MessageV3) (mm : MediaMessage) (mp : GoMap)
    (hT : row.Type_ = 43) (hR : E.NewMediaMessage 43 row.StrContent = some mm)
    (hB : row.BytesExtra ≠ []) (hP : ParseBytesExtra E row.BytesExtra = some mp) :
    ∃ m, Wrap E row = WrapResult.returned m ∧
      m.MediaMessage = some { mm with MediaPath := videoPath E (mp.get 4) } := by
  have hT' : (wrapBase E row).Type_ = 43 := hT
  have hM : (wrapBase E row).MediaMessage = some mm := by
    simp [wrapBase, resolvedMedia, contentAfterDecompress, hT, hR]
  rw [Wrap_eq]
  simp only [hB, if_false, hP, applyBytesExtra, hT', if_true, hM]
  exact ⟨_, rfl, rfl⟩

/-! ## A closed form of `PlainText` -/

theorem PlainText_text (E : Env) (m : Message) (showChatRoom : Bool) (host : GoString) :
    (PlainText E m showChatRoom host).1 =
      (if m.DisplayName ≠ [] then
          m.DisplayName ++ lit "(" ++
            (if m.IsSender = 1 then lit "我"
             else if m.IsChatRoom then m.ChatRoomSender else m.Talker) ++ lit ")"
        else
          (if m.IsSender = 1 then lit "我"
           else if m.IsChatRoom then m.ChatRoomSender else m.Talker)) ++ lit " " ++
      (if m.IsChatRoom && showChatRoom then
          lit "[" ++
            (if m.ChatRoomName ≠ [] then m.ChatRoomName ++ lit "(" ++ m.Talker ++ lit ")"
             else m.Talker) ++ lit "] "
        else []) ++
      E.Format m.CreateTime (lit "2006-01-02 15:04:05") ++ lit "\n" ++
      (match m.MediaMessage with
        | some mediaMessage => E.MediaString (SetHost mediaMessage host)
        | none => m.Content) ++ lit "\n" := by
  unfold PlainText
  cases hM : m.MediaMessage <;> by_cases hD : m.DisplayName = [] <;>
    by_cases hC : (m.IsChatRoom && showChatRoom) = true <;>
    by_cases hN : m.ChatRoomName = [] <;>
    simp [WriteString, hD, hC, hN, List.append_assoc]

/-! ## The `Message` returned by `Wrap` -/

theorem Wrap_returned_eq (E : Env) (row : MessageV3) (m : Message)
    (h : Wrap E row = WrapResult.returned m) :
    m = { wrapBase E row with
      ChatRoomSender := senderAfterExtra E row
      MediaMessage := mediaAfterExtra E row } := by
  rw [Wrap_eq] at h
  unfold senderAfterExtra mediaAfterExtra
  by_cases hB : row.BytesExtra = []
  · simp only [hB, if_true, WrapResult.returned.injEq] at h
    simp only [hB, if_true]
    rw [← h]; rfl
  · simp only [hB, if_false] at h
    simp only [hB, if_false]
    cases hP : ParseBytesExtra E row.BytesExtra with
    | none =>
      simp only [hP, WrapResult.returned.injEq] at h
      rw [← h]; rfl
    | some mp =>
      simp only [hP, applyBytesExtra] at h
      by_cases hT : row.Type_ = 43
      · have hT' : (wrapBase E row).Type_ = 43 := hT
        simp only [hT', if_true] at h
        cases hM : (wrapBase E row).MediaMessage with
        | none =>
          rw [hM] at h
          cases h
        | some mm =>
          rw [hM] at h
          simp only [WrapResult.returned.injEq] at h
          have hM' : resolvedMedia E row = some mm := hM
          rw [← h]
          simp [hT, hM', wrapBase]
      · have hT' : ¬ (wrapBase E row).Type_ = 43 := hT
        simp only [hT', if_false, WrapResult.returned.injEq] at h
        rw [← h]
        simp [hT, wrapBase]

theorem Wrap_returned_of_safe (E : Env) (row : MessageV3)
    (h : nilDereferenceCase E row = false) :
    Wrap E row = WrapResult.returned
      { wrapBase E row with
        ChatRoomSender := senderAfterExtra E row
        MediaMessage := mediaAfterExtra E row } := by
  obtain ⟨m, hm⟩ := (Wrap_returned_iff E row).mpr h
  rw [hm, ← Wrap_returned_eq E row m hm]

theorem Unix_zero (sec : Int) : Unix sec 0 = { sec := sec, nsec := 0 } := by
  simp [Unix]

theorem videoPath_nil (E : Env) : videoPath E [] = [] := by
  apply videoPath_of_not_mem
  simp [ToSlash]

theorem GoMap.get_of_get?_none (m : GoMap) (k : Int) (h : GoMap.get? m k = none) :
    GoMap.get m k = [] := by
  simp [GoMap.get, h]

theorem GoMap.get?_of_get_ne_nil (m : GoMap) (k : Int) (h : GoMap.get m k ≠ []) :
    GoMap.get? m k = some (GoMap.get m k) := by
  unfold GoMap.get at h ⊢
  cases hg : GoMap.get? m k with
  | none => simp [hg] at h
  | some v => simp

theorem PlainText_message (E : Env) (m : Message) (showChatRoom : Bool) (host : GoString) :
    (PlainText E m showChatRoom host).2 =
      { m with MediaMessage := m.MediaMessage.map (fun mediaMessage => SetHost mediaMessage host) } := by
  unfold PlainText
  cases hM : m.MediaMessage with
  | none =>
    simp only [Option.map_none']
    rw [← hM]
  | some mm => simp

/-! ## What holds on the rows on which `Wrap` returns -/

/-- On every row on which `Wrap` returns (every row outside `nilDereferenceCase`), the
returned `Message` has `isChatRoom` true if and only if the row's talker ends with
`"@chatroom"`: a condition on the talker alone. -/
theorem Wrap_isChatRoom (E : Env) (row : MessageV3) (h : nilDereferenceCase E row = false) :
    ∃ m, Wrap E row = WrapResult.returned m ∧
      (m.IsChatRoom = true ↔ lit "@chatroom" <:+ row.StrTalker) := by
  obtain ⟨m, hm⟩ := (Wrap_returned_iff E row).mpr h
  refine ⟨m, hm, ?_⟩
  rw [Wrap_isChatRoom_of_returned E row m hm, HasSuffix_iff]

theorem Wrap_isChatRoom_witness :
    (∃ m, Wrap sampleEnv { rowChatRoomText with StrTalker := lit "alice" } =
        WrapResult.returned m ∧ m.IsChatRoom = false) ∧
      (∃ m, Wrap sampleEnv { rowChatRoomText with StrTalker := lit "12345@chatroom" } =
        WrapResult.returned m ∧ m.IsChatRoom = true) := by
  constructor
  · obtain ⟨m, hm, h⟩ :=
      Wrap_isChatRoom sampleEnv { rowChatRoomText with StrTalker := lit "alice" } (by decide)
    refine ⟨m, hm, ?_⟩
    cases hc : m.IsChatRoom with
    | false => rfl
    | true =>
      have hs : HasSuffix (lit "alice") (lit "@chatroom") = true :=
        (HasSuffix_iff _ _).mpr (h.mp hc)
      exact absurd hs (by decide)
  · obtain ⟨m, hm, h⟩ :=
      Wrap_isChatRoom sampleEnv { rowChatRoomText with StrTalker := lit "12345@chatroom" }
        (by decide)
    exact ⟨m, hm, h.mpr ((HasSuffix_iff _ _).mp (by decide))⟩

/-- On every row on which `Wrap` returns (every row outside `nilDereferenceCase`): if
`chatRoomSender` of the returned `Message` is non-empty then the row's talker ends with
`"@chatroom"`, its auxiliary bytes are non-empty and decode to a map, and that map has
`chatRoomSender` at tag 1; conversely, when the talker ends with `"@chatroom"` and the
non-empty auxiliary bytes decode to a map, `chatRoomSender` is the map's value at tag 1. -/
theorem Wrap_chatRoomSender (E : Env) (row : MessageV3)
    (h : nilDereferenceCase E row = false) :
    ∃ m, Wrap E row = WrapResult.returned m ∧
      (m.ChatRoomSender ≠ [] →
        lit "@chatroom" <:+ row.StrTalker ∧ row.BytesExtra ≠ [] ∧
          ∃ mp, ParseBytesExtra E row.BytesExtra = some mp ∧
            GoMap.get? mp 1 = some m.ChatRoomSender) ∧
      (lit "@chatroom" <:+ row.StrTalker → row.BytesExtra ≠ [] →
        ∀ mp, ParseBytesExtra E row.BytesExtra = some mp →
          m.ChatRoomSender = GoMap.get mp 1) := by
  refine ⟨_, Wrap_returned_of_safe E row h, ?_, ?_⟩
  · show senderAfterExtra E row ≠ [] → _
    unfold senderAfterExtra
    intro hne
    by_cases hB : row.BytesExtra = []
    · simp [hB] at hne
    · cases hP : ParseBytesExtra E row.BytesExtra with
      | none => simp [hB, hP] at hne
      | some mp =>
        cases hS : HasSuffix row.StrTalker (lit "@chatroom") with
        | false => simp [hB, hP, hS] at hne
        | true =>
          simp only [hB, if_false, hP, hS, if_true] at hne ⊢
          exact ⟨(HasSuffix_iff _ _).mp hS, hB, mp, rfl, GoMap.get?_of_get_ne_nil mp 1 hne⟩
  · intro hS hB mp hP
    show senderAfterExtra E row = _
    have hS' : HasSuffix row.StrTalker (lit "@chatroom") = true := (HasSuffix_iff _ _).mpr hS
    simp [senderAfterExtra, hB, hP, hS']

theorem Wrap_chatRoomSender_witness :
    ∃ m, Wrap sampleEnv rowChatRoomText = WrapResult.returned m ∧
      m.ChatRoomSender = lit "bob" := by
  obtain ⟨m, hm, _, h2⟩ := Wrap_chatRoomSender sampleEnv rowChatRoomText (by decide)
  exact ⟨m, hm, h2 ((HasSuffix_iff _ _).mp (by decide)) (by decide) [(1, lit "bob")]
    (by decide)⟩

/-- On every row on which `Wrap` returns (every row outside `nilDereferenceCase`), the
returned `Message` has `sequence`, `talkerId`, `talker`, `isSender`, `type`, `subType` and
`compressContent` equal to the row's columns, `createTime` equal to the instant of the
row's create-time in epoch seconds with zero nanoseconds, and `version` equal to
`"wechatv3"`. -/
theorem Wrap_copies_columns (E : Env) (row : MessageV3)
    (h : nilDereferenceCase E row = false) :
    ∃ m, Wrap E row = WrapResult.returned m ∧
      m.Sequence = row.Sequence ∧ m.TalkerID = row.TalkerID ∧ m.Talker = row.StrTalker ∧
      m.IsSender = row.IsSender ∧ m.Type_ = row.Type_ ∧ m.SubType = row.SubType ∧
      m.CompressContent = row.CompressContent ∧
      m.CreateTime = { sec := row.CreateTime, nsec := 0 } ∧
      m.Version = lit "wechatv3" := by
  exact ⟨_, Wrap_returned_of_safe E row h, rfl, rfl, rfl, rfl, rfl, rfl, rfl,
    Unix_zero row.CreateTime, rfl⟩

theorem Wrap_copies_columns_witness :
    sampleEnv.Decompress rowRich.CompressContent = some (lit "<appmsg/>") ∧
      ∃ m, Wrap sampleEnv rowRich = WrapResult.returned m ∧
        m.Sequence = 1700000000001 ∧ m.CompressContent = 4 :: lit "<appmsg/>" ∧
        m.CreateTime = { sec := 1700000000, nsec := 0 } ∧ m.Version = lit "wechatv3" := by
  refine ⟨by decide, ?_⟩
  obtain ⟨m, hm, h1, _, _, _, _, _, h7, h8, h9⟩ :=
    Wrap_copies_columns sampleEnv rowRich (by decide)
  exact ⟨m, hm, h1, h7, h8, h9⟩

/-- On every row with a type other than 49 on which `Wrap` returns (every such row
outside `nilDereferenceCase`), the content of the returned `Message` is the row's raw text
content, and the row with any other `compressContent` in its place yields the same content
and the same `mediaMessage`. -/
theorem Wrap_ignores_compressContent (E : Env) (row : MessageV3) (h49 : row.Type_ ≠ 49)
    (h : nilDereferenceCase E row = false) :
    ∃ m, Wrap E row = WrapResult.returned m ∧ m.Content = row.StrContent ∧
      ∀ compressContent, ∃ m2,
        Wrap E { row with CompressContent := compressContent } = WrapResult.returned m2 ∧
        m2.Content = m.Content ∧ m2.MediaMessage = m.MediaMessage := by
  have hc : ∀ cc, contentAfterDecompress E { row with CompressContent := cc } =
      row.StrContent := by
    intro cc
    simp [contentAfterDecompress, h49]
  have hr : ∀ cc, resolvedMedia E { row with CompressContent := cc } =
      resolvedMedia E row := by
    intro cc
    simp [resolvedMedia, contentAfterDecompress, h49]
  refine ⟨_, Wrap_returned_of_safe E row h, ?_, ?_⟩
  · show contentAfterDecompress E row = _
    simp [contentAfterDecompress, h49]
  · intro cc
    have h2 : nilDereferenceCase E { row with CompressContent := cc } = false := h
    refine ⟨_, Wrap_returned_of_safe E _ h2, ?_, ?_⟩
    · show contentAfterDecompress E { row with CompressContent := cc } =
        contentAfterDecompress E row
      simp [contentAfterDecompress, h49]
    · show mediaAfterExtra E { row with CompressContent := cc } = mediaAfterExtra E row
      simp [mediaAfterExtra, hr cc]

theorem Wrap_ignores_compressContent_witness :
    sampleEnv.Decompress (4 :: lit "<other/>") = some (lit "<other/>") ∧
      (∃ m, Wrap sampleEnv rowVideo = WrapResult.returned m ∧ m.Content = lit "<msg/>") ∧
      ∃ m2, Wrap sampleEnv { rowVideo with CompressContent := 4 :: lit "<other/>" } =
          WrapResult.returned m2 ∧ m2.Content = lit "<msg/>" := by
  obtain ⟨m, hm, hc, h⟩ := Wrap_ignores_compressContent sampleEnv rowVideo (by decide)
    (by decide)
  refine ⟨by decide, ⟨m, hm, hc⟩, ?_⟩
  obtain ⟨m2, hm2, hc2, _⟩ := h (4 :: lit "<other/>")
  exact ⟨m2, hm2, by rw [hc2, hc]; rfl⟩

/-! ## The claims -/

/-- C1. `Wrap` does not return on every row: on a video row (type 43) whose content the
media resolver rejects and whose non-empty auxiliary bytes decode to a map, the call ends in
a nil-pointer panic at `_m.MediaMessage.MediaPath = path` instead of returning a `Message`
with `mediaMessage` absent. -/
theorem Wrap_panics_on_failed_video_resolve :
    sampleEnv.NewMediaMessage 43 rowVideoBadContent.StrContent = none ∧
      (ParseBytesExtra sampleEnv rowVideoBadContent.BytesExtra).isSome = true ∧
      Wrap sampleEnv rowVideoBadContent = WrapResult.panicNilDereference := by
  decide

/-- C2. For every row of type 49, `Wrap` returns a `Message`; its content is the
decompressed bytes when `lz4.Decompress` succeeds on the row's compressed content, and the
row's original text content when it fails. -/
theorem Wrap_type49_content (E : Env) (row : MessageV3) (h : row.Type_ = 49) :
    ∃ m, Wrap E row = WrapResult.returned m ∧
      (∀ b, E.Decompress row.CompressContent = some b → m.Content = b) ∧
      (E.Decompress row.CompressContent = none → m.Content = row.StrContent) := by
  obtain ⟨m, hm, hc, _⟩ := Wrap_of_type_ne_43 E row (by omega)
  refine ⟨m, hm, ?_, ?_⟩
  · intro b hb
    simp [hc, contentAfterDecompress, h, hb]
  · intro hb
    simp [hc, contentAfterDecompress, h, hb]

theorem Wrap_type49_content_witness :
    (rowRich.Type_ = 49 ∧ ∃ m, Wrap sampleEnv rowRich = WrapResult.returned m ∧
        m.Content = lit "<appmsg/>") ∧
      (rowRichCorrupt.Type_ = 49 ∧ ∃ m, Wrap sampleEnv rowRichCorrupt = WrapResult.returned m ∧
        m.Content = lit "raw") := by
  refine ⟨⟨by decide, ?_⟩, ⟨by decide, ?_⟩⟩
  · obtain ⟨m, hm, h1, _⟩ := Wrap_type49_content sampleEnv rowRich (by decide)
    exact ⟨m, hm, h1 _ (by decide)⟩
  · obtain ⟨m, hm, _, h2⟩ := Wrap_type49_content sampleEnv rowRichCorrupt (by decide)
    exact ⟨m, hm, h2 (by decide)⟩

/-- C3. For every row of type 43 whose media resolve succeeds with `mm` and whose non-empty
auxiliary bytes decode to a map with the value `p` at tag 4, `Wrap` returns a `Message`
whose media variant is `mm` with its resolved path replaced by `path`, where: when `p`, with
separators normalised to `/`, has more than one `/`-separated segment, `path` is the
remaining segments rejoined with `/` once the first is dropped, which is the text after the
first `/`; when it has a single segment (no `/`), `path` is `p` unchanged. -/
theorem Wrap_video_path (E : Env) (row : MessageV3) (mm : MediaMessage) (mp : GoMap)
    (p : GoString) (hT : row.Type_ = 43)
    (hR : E.NewMediaMessage 43 row.StrContent = some mm)
    (hB : row.BytesExtra ≠ []) (hP : ParseBytesExtra E row.BytesExtra = some mp)
    (h4 : GoMap.get? mp 4 = some p) :
    ∃ m path, Wrap E row = WrapResult.returned m ∧
      m.MediaMessage = some { mm with MediaPath := path } ∧
      (1 < (Split (ToSlash E p) slash).length →
        path = Join ((Split (ToSlash E p) slash).drop 1) (lit "/")) ∧
      ((Split (ToSlash E p) slash).length ≤ 1 → path = p) ∧
      (∀ first rest, ToSlash E p = first ++ slash :: rest → slash ∉ first → path = rest) ∧
      (slash ∉ ToSlash E p → path = p) := by
  obtain ⟨m, hm, hmm⟩ := Wrap_video E row mm mp hT hR hB hP
  rw [GoMap.get_of_get? mp 4 p h4] at hmm
  refine ⟨m, videoPath E p, hm, hmm, ?_, ?_, ?_, ?_⟩
  · intro h; simp [videoPath, h]
  · intro h
    have : ¬ (Split (ToSlash E p) slash).length > 1 := by omega
    simp [videoPath, this]
  · intro first rest h hn
    exact videoPath_of_append E p first rest h hn
  · exact videoPath_of_not_mem E p

theorem Wrap_video_path_witness :
    (∃ m mm, Wrap sampleEnv rowVideo = WrapResult.returned m ∧ m.MediaMessage = some mm ∧
        mm.MediaPath = lit "sub/file.mp4") ∧
      (∃ m mm, Wrap sampleEnv { rowVideo with BytesExtra := [4] } = WrapResult.returned m ∧
        m.MediaMessage = some mm ∧ mm.MediaPath = lit "file.mp4") := by
  constructor
  · obtain ⟨m, path, hm, hmm, _, _, h3, _⟩ :=
      Wrap_video_path sampleEnv rowVideo
        { MediaPath := lit "from/content.mp4", Host := [], Payload := lit "<msg/>" }
        [(4, lit "root/sub/file.mp4")] (lit "root/sub/file.mp4")
        (by decide) (by decide) (by decide) (by decide) (by decide)
    exact ⟨m, _, hm, hmm, h3 (lit "root") (lit "sub/file.mp4") (by decide) (by decide)⟩
  · obtain ⟨m, path, hm, hmm, _, _, _, h4⟩ :=
      Wrap_video_path sampleEnv { rowVideo with BytesExtra := [4] }
        { MediaPath := lit "from/content.mp4", Host := [], Payload := lit "<msg/>" }
        [(4, lit "file.mp4")] (lit "file.mp4")
        (by decide) (by decide) (by decide) (by decide) (by decide)
    exact ⟨m, _, hm, hmm, h4 (by decide)⟩

/-- C4. For every buffer that decodes successfully to a non-empty item list,
`ParseBytesExtra` returns a map whose keys are exactly the tags occurring in the list (each
key once) and which maps the tag of every item that no later item shares to that item's
value: the last item of a tag wins. -/
theorem ParseBytesExtra_last_write_wins (E : Env) (b : GoString)
    (items : List BytesExtraItem) (hU : Unmarshal E b = some { Items := items })
    (hne : items ≠ []) :
    ∃ m, ParseBytesExtra E b = some m ∧
      (∀ t, t ∈ GoMap.keys m ↔ ∃ it ∈ items, it.Type_ = t) ∧
      (GoMap.keys m).Nodup ∧
      (∀ pre it post, items = pre ++ it :: post → (∀ x ∈ post, x.Type_ ≠ it.Type_) →
        GoMap.get? m it.Type_ = some it.Value ∧ GoMap.get m it.Type_ = it.Value) := by
  refine ⟨fillMap items [], (ParseBytesExtra_eq_some E b _).mpr ⟨items, hU, hne, rfl⟩, ?_, ?_, ?_⟩
  · intro t
    rw [fillMap_mem_keys]
    simp [GoMap.keys]
  · exact fillMap_nodup_keys items [] (by simp [GoMap.keys])
  · intro pre it post e hpost
    subst e
    have h := fillMap_get?_last pre post it [] hpost
    exact ⟨h, GoMap.get_of_get? _ _ _ h⟩

theorem ParseBytesExtra_last_write_wins_witness :
    Unmarshal sampleEnv [2] =
        some { Items := [{ Type_ := 7, Value := lit "a" }, { Type_ := 7, Value := lit "b" }] } ∧
      ∃ m, ParseBytesExtra sampleEnv [2] = some m ∧ GoMap.keys m = [7] ∧
        GoMap.get m 7 = lit "b" := by
  refine ⟨by decide, ?_⟩
  obtain ⟨m, hm, _, _, h⟩ :=
    ParseBytesExtra_last_write_wins sampleEnv [2]
      [{ Type_ := 7, Value := lit "a" }, { Type_ := 7, Value := lit "b" }]
      (by decide) (by decide)
  have hm' : ParseBytesExtra sampleEnv [2] = some [(7, lit "b")] := by decide
  have e : m = [(7, lit "b")] := by
    rw [hm] at hm'
    exact Option.some.inj hm'
  refine ⟨m, hm, by rw [e]; decide, ?_⟩
  exact (h [{ Type_ := 7, Value := lit "a" }] { Type_ := 7, Value := lit "b" } [] rfl
    (by simp)).2

/-- C5. `ParseBytesExtra` returns the nil map exactly when the bytes fail to decode or
decode to an empty item list, and empty input bytes are such a case; whenever it returns a
map, the map is not empty and holds a key for every tag of the decoded item list (it is
never a partial or an empty map). -/
theorem ParseBytesExtra_nil_iff (E : Env) (b : GoString) :
    (ParseBytesExtra E b = none ↔
        (Unmarshal E b = none ∨ Unmarshal E b = some { Items := [] })) ∧
      ParseBytesExtra E [] = none ∧
      (∀ m, ParseBytesExtra E b = some m →
        m ≠ [] ∧ ∃ items, Unmarshal E b = some { Items := items } ∧ items ≠ [] ∧
          ∀ it ∈ items, it.Type_ ∈ GoMap.keys m) := by
  refine ⟨?_, ParseBytesExtra_nil E, ?_⟩
  · unfold ParseBytesExtra
    cases h : Unmarshal E b with
    | none => simp
    | some pbMsg =>
      obtain ⟨items⟩ := pbMsg
      by_cases hi : items = [] <;> simp [hi]
  · intro m hm
    obtain ⟨items, hU, hne, rfl⟩ := (ParseBytesExtra_eq_some E b m).mp hm
    refine ⟨fillMap_ne_nil items [] hne, items, hU, hne, ?_⟩
    intro it hit
    rw [fillMap_mem_keys]
    exact Or.inl ⟨it, hit, rfl⟩

/-- C6. `Wrap` does not give an `isChatRoom` for every row: on a video row (type 43) whose
talker ends with `"@chatroom"`, whose content the media resolver rejects and whose
non-empty auxiliary bytes decode to a map, the call ends in the nil-pointer panic at
`_m.MediaMessage.MediaPath = path`, so no `Message` with `isChatRoom` true is returned. -/
theorem Wrap_isChatRoom_lost_on_panic :
    lit "@chatroom" <:+ rowChatRoomVideoBadContent.StrTalker ∧
      Wrap sampleEnv rowChatRoomVideoBadContent = WrapResult.panicNilDereference ∧
      ¬ ∃ m, Wrap sampleEnv rowChatRoomVideoBadContent = WrapResult.returned m ∧
        m.IsChatRoom = true := by
  have hp : Wrap sampleEnv rowChatRoomVideoBadContent = WrapResult.panicNilDereference := by
    decide
  refine ⟨(HasSuffix_iff _ _).mp (by decide), hp, ?_⟩
  rintro ⟨m, hm, _⟩
  rw [hp] at hm
  cases hm

/-- C7. For every row of type 1, `Wrap` returns a `Message` whose `mediaMessage` is absent,
whatever the content, the compressed content and the auxiliary bytes are, and whatever the
media resolver would return. -/
theorem Wrap_type1_no_media (E : Env) (row : MessageV3) (h : row.Type_ = 1) :
    ∃ m, Wrap E row = WrapResult.returned m ∧ m.MediaMessage = none := by
  obtain ⟨m, hm, _, hr, _⟩ := Wrap_of_type_ne_43 E row (by omega)
  exact ⟨m, hm, by simp [hr, resolvedMedia, h]⟩

theorem Wrap_type1_no_media_witness :
    ({ rowVideo with Type_ := 1 } : MessageV3).Type_ = 1 ∧
      (sampleEnv.NewMediaMessage 1 ({ rowVideo with Type_ := 1 } : MessageV3).StrContent).isSome
        = true ∧
      ∃ m, Wrap sampleEnv { rowVideo with Type_ := 1 } = WrapResult.returned m ∧
        m.MediaMessage = none :=
  ⟨by decide, by decide, Wrap_type1_no_media sampleEnv { rowVideo with Type_ := 1 } (by decide)⟩

/-- C8. For every `Message`, the text of `PlainText` starts with the speaker: the label is
the self-label `"我"` when `isSender` is 1 (also in a chat room), else `chatRoomSender` when
`isChatRoom`, else `talker`; the text starts with `displayName ++ "(" ++ label ++ ") "`
when `displayName` is non-empty and with `label ++ " "` when it is empty. -/
theorem PlainText_speaker_label (E : Env) (m : Message) (showChatRoom : Bool)
    (host : GoString) :
    ∃ label rest,
      (m.IsSender = 1 → label = lit "我") ∧
      (m.IsSender ≠ 1 → m.IsChatRoom = true → label = m.ChatRoomSender) ∧
      (m.IsSender ≠ 1 → m.IsChatRoom = false → label = m.Talker) ∧
      (m.DisplayName ≠ [] →
        (PlainText E m showChatRoom host).1 =
          m.DisplayName ++ lit "(" ++ label ++ lit ") " ++ rest) ∧
      (m.DisplayName = [] → (PlainText E m showChatRoom host).1 = label ++ lit " " ++ rest) := by
  have hp : lit ") " = lit ")" ++ lit " " := by decide
  refine ⟨if m.IsSender = 1 then lit "我"
      else if m.IsChatRoom then m.ChatRoomSender else m.Talker,
    (if m.IsChatRoom && showChatRoom then
        lit "[" ++ (if m.ChatRoomName ≠ [] then m.ChatRoomName ++ lit "(" ++ m.Talker ++ lit ")"
          else m.Talker) ++ lit "] "
      else []) ++ E.Format m.CreateTime (lit "2006-01-02 15:04:05") ++ lit "\n" ++
      (match m.MediaMessage with
        | some mediaMessage => E.MediaString (SetHost mediaMessage host)
        | none => m.Content) ++ lit "\n", ?_, ?_, ?_, ?_, ?_⟩
  · intro h; simp [h]
  · intro h1 h2; simp [h1, h2]
  · intro h1 h2; simp [h1, h2]
  · intro hD
    rw [PlainText_text, if_pos hD, hp]
    simp only [List.append_assoc]
  · intro hD
    rw [PlainText_text, if_neg (by simp [hD])]
    simp only [List.append_assoc]

/-- C9. End to end: for every row with `isSender = 0`, type 1, a talker ending in
`"@chatroom"` and auxiliary bytes that decode to a map with the value `s` at tag 1, `Wrap`
returns a `Message` whose `PlainText` with `showChatRoom = true` is, for any host,
`s ++ " [" ++ talker ++ "] " ++` formatted create time `++ "\n" ++ content ++ "\n"`. -/
theorem Wrap_PlainText_chatroom (E : Env) (row : MessageV3) (mp : GoMap) (s host : GoString)
    (hS : row.IsSender = 0) (hT : row.Type_ = 1) (hK : lit "@chatroom" <:+ row.StrTalker)
    (hP : ParseBytesExtra E row.BytesExtra = some mp) (h1 : GoMap.get? mp 1 = some s) :
    ∃ m, Wrap E row = WrapResult.returned m ∧
      (PlainText E m true host).1 =
        s ++ lit " [" ++ row.StrTalker ++ lit "] " ++
          E.Format (Unix row.CreateTime 0) (lit "2006-01-02 15:04:05") ++ lit "\n" ++
          row.StrContent ++ lit "\n" := by
  have hB : row.BytesExtra ≠ [] := by
    intro e
    rw [e, ParseBytesExtra_nil] at hP
    cases hP
  have hK' : HasSuffix row.StrTalker (lit "@chatroom") = true := (HasSuffix_iff _ _).mpr hK
  obtain ⟨m, hm, hc, hmm, hroom, htalker, htime, hsender, hdn, hcn, hcs⟩ :=
    Wrap_of_type_ne_43 E row (by omega)
  refine ⟨m, hm, ?_⟩
  rw [hroom, hK'] at hcs
  simp only [hB, if_false, hP, if_true, GoMap.get_of_get? mp 1 s h1] at hcs
  have hc' : m.Content = row.StrContent := by
    simp [hc, contentAfterDecompress, hT]
  have hmm' : m.MediaMessage = none := by
    simp [hmm, resolvedMedia, hT]
  have hsp : lit " [" = lit " " ++ lit "[" := by decide
  rw [PlainText_text, hmm', hc', hdn, hcn, hcs, hroom, hK', htalker, htime, hsender, hS, hsp]
  simp [List.append_assoc]

theorem Wrap_PlainText_chatroom_witness :
    ∃ m, Wrap sampleEnv rowChatRoomText = WrapResult.returned m ∧
      (PlainText sampleEnv m true (lit "h")).1 =
        lit "bob [7001@chatroom] 2023-11-14 22:13:20\nhi\n" ∧
      lit "bob " <+: (PlainText sampleEnv m true (lit "h")).1 ∧
      lit "[7001@chatroom] " <:+: (PlainText sampleEnv m true (lit "h")).1 ∧
      lit "hi\n" <:+ (PlainText sampleEnv m true (lit "h")).1 := by
  obtain ⟨m, hm, h⟩ :=
    Wrap_PlainText_chatroom sampleEnv rowChatRoomText [(1, lit "bob")] (lit "bob") (lit "h")
      (by decide) (by decide) ((HasSuffix_iff _ _).mp (by decide)) (by decide) (by decide)
  have e : (PlainText sampleEnv m true (lit "h")).1 =
      lit "bob [7001@chatroom] 2023-11-14 22:13:20\nhi\n" := by
    rw [h]; decide
  refine ⟨m, hm, e, ?_, ?_, ?_⟩
  · rw [e]; exact ⟨lit "[7001@chatroom] 2023-11-14 22:13:20\nhi\n", by decide⟩
  · rw [e]; exact ⟨lit "bob ", lit "2023-11-14 22:13:20\nhi\n", by decide⟩
  · rw [e]; exact ⟨lit "bob [7001@chatroom] 2023-11-14 22:13:20\n", by decide⟩

/-- C10. In the text of `PlainText` the chat-room segment sits between the trailing space
of the speaker and the timestamp: with `isChatRoom` and `showChatRoom` both true it is
`"[" ++ chatRoomName ++ "(" ++ talker ++ ")" ++ "] "` when `chatRoomName` is non-empty and
`"[" ++ talker ++ "] "` otherwise; with `isChatRoom` false or `showChatRoom` false it is
empty, so that the timestamp directly follows the space of the speaker. -/
theorem PlainText_chatroom_segment (E : Env) (m : Message) (showChatRoom : Bool)
    (host : GoString) :
    ∃ label segment rest,
      (PlainText E m showChatRoom host).1 =
        (if m.DisplayName ≠ [] then m.DisplayName ++ lit "(" ++ label ++ lit ")" else label) ++
          lit " " ++ segment ++ E.Format m.CreateTime (lit "2006-01-02 15:04:05") ++ rest ∧
      label = (if m.IsSender = 1 then lit "我"
        else if m.IsChatRoom then m.ChatRoomSender else m.Talker) ∧
      (m.IsChatRoom = true → showChatRoom = true → m.ChatRoomName ≠ [] →
        segment = lit "[" ++ m.ChatRoomName ++ lit "(" ++ m.Talker ++ lit ")" ++ lit "] ") ∧
      (m.IsChatRoom = true → showChatRoom = true → m.ChatRoomName = [] →
        segment = lit "[" ++ m.Talker ++ lit "] ") ∧
      (m.IsChatRoom = false ∨ showChatRoom = false → segment = []) := by
  refine ⟨_, (if m.IsChatRoom && showChatRoom then
      lit "[" ++ (if m.ChatRoomName ≠ [] then m.ChatRoomName ++ lit "(" ++ m.Talker ++ lit ")"
        else m.Talker) ++ lit "] " else []),
    lit "\n" ++ (match m.MediaMessage with
        | some mediaMessage => E.MediaString (SetHost mediaMessage host)
        | none => m.Content) ++ lit "\n", ?_, rfl, ?_, ?_, ?_⟩
  · rw [PlainText_text]
    simp only [List.append_assoc]
  · intro h1 h2 h3
    simp [h1, h2, h3]
  · intro h1 h2 h3
    simp [h1, h2, h3]
  · rintro (h | h) <;> simp [h]

/-- C11. For every `Message`, the text of `PlainText` is the speaker part and the chat-room
segment, then the timestamp, then exactly `"\n" ++ body ++ "\n"`, where `body` is the
textual description of the media variant with `host` bound into it when `mediaMessage` is
present and is `content` verbatim when it is absent; every text ends with a line break and,
with `mediaMessage` absent, is the same for every host. -/
theorem PlainText_body (E : Env) (m : Message) (showChatRoom : Bool) (host : GoString) :
    ∃ body,
      (PlainText E m showChatRoom host).1 =
        (if m.DisplayName ≠ [] then
            m.DisplayName ++ lit "(" ++
              (if m.IsSender = 1 then lit "我"
               else if m.IsChatRoom then m.ChatRoomSender else m.Talker) ++ lit ")"
          else
            (if m.IsSender = 1 then lit "我"
             else if m.IsChatRoom then m.ChatRoomSender else m.Talker)) ++ lit " " ++
        (if m.IsChatRoom && showChatRoom then
            lit "[" ++
              (if m.ChatRoomName ≠ [] then m.ChatRoomName ++ lit "(" ++ m.Talker ++ lit ")"
               else m.Talker) ++ lit "] "
          else []) ++
        E.Format m.CreateTime (lit "2006-01-02 15:04:05") ++ (lit "\n" ++ body ++ lit "\n") ∧
      (∀ mediaMessage, m.MediaMessage = some mediaMessage →
        body = E.MediaString (SetHost mediaMessage host)) ∧
      (m.MediaMessage = none → body = m.Content) ∧
      lit "\n" <:+ (PlainText E m showChatRoom host).1 ∧
      (m.MediaMessage = none → ∀ host2,
        (PlainText E m showChatRoom host2).1 = (PlainText E m showChatRoom host).1) := by
  refine ⟨(match m.MediaMessage with
      | some mediaMessage => E.MediaString (SetHost mediaMessage host)
      | none => m.Content), ?_, ?_, ?_, ?_, ?_⟩
  · rw [PlainText_text]
    simp only [List.append_assoc]
  · intro mm h
    simp [h]
  · intro h
    simp [h]
  · rw [PlainText_text]
    exact List.suffix_append _ _
  · intro h host2
    rw [PlainText_text, PlainText_text, h]

/-- C12. `Wrap` does not give a `chatRoomSender` for every row: on a video row (type 43)
whose talker ends with `"@chatroom"`, whose non-empty auxiliary bytes decode to a map with
`bob` at tag 1 and whose content the media resolver rejects, the call ends in the
nil-pointer panic at `_m.MediaMessage.MediaPath = path`, so no `Message` whose
`chatRoomSender` is the value at tag 1 is returned. -/
theorem Wrap_chatRoomSender_lost_on_panic :
    lit "@chatroom" <:+ rowChatRoomVideoBadContent.StrTalker ∧
      rowChatRoomVideoBadContent.BytesExtra ≠ [] ∧
      (∃ mp, ParseBytesExtra sampleEnv rowChatRoomVideoBadContent.BytesExtra = some mp ∧
        GoMap.get? mp 1 = some (lit "bob")) ∧
      Wrap sampleEnv rowChatRoomVideoBadContent = WrapResult.panicNilDereference ∧
      ¬ ∃ m, Wrap sampleEnv rowChatRoomVideoBadContent = WrapResult.returned m ∧
        m.ChatRoomSender = lit "bob" := by
  have hp : Wrap sampleEnv rowChatRoomVideoBadContent = WrapResult.panicNilDereference := by
    decide
  refine ⟨(HasSuffix_iff _ _).mp (by decide), by decide, ⟨[(1, lit "bob")], by decide,
    by decide⟩, hp, ?_⟩
  rintro ⟨m, hm, _⟩
  rw [hp] at hm
  cases hm

/-- C13. For every row whose auxiliary bytes are empty or decode to the nil map, `Wrap`
returns a `Message` with an empty `chatRoomSender` whose `mediaMessage` is what the media
resolver produced on the type and the content after decompression: absent for type 1,
the resolver's outcome otherwise, with no path override, also for type 43 in a chat room. -/
theorem Wrap_without_metadata (E : Env) (row : MessageV3)
    (h : row.BytesExtra = [] ∨ ParseBytesExtra E row.BytesExtra = none) :
    ∃ m, Wrap E row = WrapResult.returned m ∧ m.ChatRoomSender = [] ∧
      (row.Type_ = 1 → m.MediaMessage = none) ∧
      (row.Type_ ≠ 1 → m.MediaMessage = E.NewMediaMessage row.Type_ m.Content) ∧
      (row.Type_ = 43 → m.MediaMessage = E.NewMediaMessage 43 row.StrContent) := by
  have hP : ParseBytesExtra E row.BytesExtra = none := by
    rcases h with h | h
    · rw [h]; exact ParseBytesExtra_nil E
    · exact h
  refine ⟨wrapBase E row, ?_, rfl, ?_, ?_, ?_⟩
  · rw [Wrap_eq, hP]
    by_cases hB : row.BytesExtra = [] <;> simp [hB]
  · intro h1
    simp [wrapBase, resolvedMedia, h1]
  · intro h1
    simp [wrapBase, resolvedMedia, h1]
  · intro h43
    simp [wrapBase, resolvedMedia, contentAfterDecompress, h43]

theorem Wrap_without_metadata_witness :
    ParseBytesExtra sampleEnv rowVideoUndecodable.BytesExtra = none ∧
      ∃ m, Wrap sampleEnv rowVideoUndecodable = WrapResult.returned m ∧
        m.IsChatRoom = true ∧ m.ChatRoomSender = [] ∧
        m.MediaMessage = some
          { MediaPath := lit "from/content.mp4", Host := [], Payload := lit "<msg/>" } := by
  refine ⟨by decide, ?_⟩
  obtain ⟨m, hm, h1, _, _, h4⟩ :=
    Wrap_without_metadata sampleEnv rowVideoUndecodable (Or.inr (by decide))
  refine ⟨m, hm, ?_, h1, ?_⟩
  · rw [Wrap_isChatRoom_of_returned sampleEnv rowVideoUndecodable m hm]
    decide
  · rw [h4 (by decide)]
    decide

/-- C14. `Wrap` does not copy the columns of every row into a `Message`: on a video row
(type 43) whose content the media resolver rejects and whose non-empty auxiliary bytes
decode to a map, the call ends in the nil-pointer panic at
`_m.MediaMessage.MediaPath = path`, after the columns were copied into `_m`, so no
`Message` carrying the row's columns, create time and version is returned. -/
theorem Wrap_columns_lost_on_panic :
    Wrap sampleEnv rowChatRoomVideoBadContent = WrapResult.panicNilDereference ∧
      ¬ ∃ m, Wrap sampleEnv rowChatRoomVideoBadContent = WrapResult.returned m ∧
        m.Sequence = rowChatRoomVideoBadContent.Sequence ∧
        m.CreateTime = { sec := rowChatRoomVideoBadContent.CreateTime, nsec := 0 } ∧
        m.Version = lit "wechatv3" := by
  have hp : Wrap sampleEnv rowChatRoomVideoBadContent = WrapResult.panicNilDereference := by
    decide
  refine ⟨hp, ?_⟩
  rintro ⟨m, hm, _⟩
  rw [hp] at hm
  cases hm

/-- C15. For every `Message`, `showChatRoom` and `host`, the `Message` after the call of
`PlainText` has every field (`sequence`, `createTime`, `talkerId`, `talker`, `isSender`,
`type`, `subType`, `content`, `compressContent`, `isChatRoom`, `chatRoomSender`,
`displayName`, `chatRoomName`, `version`) unchanged; the media variant, when present, is
the one before the call with `host` bound into it and nothing else of it changed; when
`mediaMessage` is absent the `Message` is unchanged altogether. -/
theorem PlainText_frame (E : Env) (m : Message) (showChatRoom : Bool) (host : GoString) :
    (PlainText E m showChatRoom host).2.Sequence = m.Sequence ∧
      (PlainText E m showChatRoom host).2.CreateTime = m.CreateTime ∧
      (PlainText E m showChatRoom host).2.TalkerID = m.TalkerID ∧
      (PlainText E m showChatRoom host).2.Talker = m.Talker ∧
      (PlainText E m showChatRoom host).2.IsSender = m.IsSender ∧
      (PlainText E m showChatRoom host).2.Type_ = m.Type_ ∧
      (PlainText E m showChatRoom host).2.SubType = m.SubType ∧
      (PlainText E m showChatRoom host).2.Content = m.Content ∧
      (PlainText E m showChatRoom host).2.CompressContent = m.CompressContent ∧
      (PlainText E m showChatRoom host).2.IsChatRoom = m.IsChatRoom ∧
      (PlainText E m showChatRoom host).2.ChatRoomSender = m.ChatRoomSender ∧
      (PlainText E m showChatRoom host).2.DisplayName = m.DisplayName ∧
      (PlainText E m showChatRoom host).2.ChatRoomName = m.ChatRoomName ∧
      (PlainText E m showChatRoom host).2.Version = m.Version ∧
      (∀ mediaMessage, m.MediaMessage = some mediaMessage →
        ∃ after, (PlainText E m showChatRoom host).2.MediaMessage = some after ∧
          after.Host = host ∧ after.MediaPath = mediaMessage.MediaPath ∧
          after.Payload = mediaMessage.Payload) ∧
      (m.MediaMessage = none → (PlainText E m showChatRoom host).2 = m) := by
  rw [PlainText_message]
  refine ⟨rfl, rfl, rfl, rfl, rfl, rfl, rfl, rfl, rfl, rfl, rfl, rfl, rfl, rfl, ?_, ?_⟩
  · intro mm h
    exact ⟨SetHost mm host, by simp [h], rfl, rfl, rfl⟩
  · intro h
    cases m
    simp_all

/-- C16. For every row with a type other than 1 and 43, `Wrap` returns a `Message` whose
`mediaMessage` is exactly the outcome of the media resolver on the type and the content `c`
after the decompression step (the decompressed bytes for type 49 when decompression
succeeded, the raw text content otherwise): the resolver's variant on success, absent on
failure, and the same whatever the auxiliary bytes are. -/
theorem Wrap_media_other_types (E : Env) (row : MessageV3) (h1 : row.Type_ ≠ 1)
    (h43 : row.Type_ ≠ 43) :
    ∃ m c, Wrap E row = WrapResult.returned m ∧
      m.MediaMessage = E.NewMediaMessage row.Type_ c ∧ m.Content = c ∧
      (row.Type_ = 49 → ∀ b, E.Decompress row.CompressContent = some b → c = b) ∧
      (row.Type_ = 49 → E.Decompress row.CompressContent = none → c = row.StrContent) ∧
      (row.Type_ ≠ 49 → c = row.StrContent) ∧
      (∀ extra, ∃ m2, Wrap E { row with BytesExtra := extra } = WrapResult.returned m2 ∧
        m2.MediaMessage = m.MediaMessage) := by
  obtain ⟨m, hm, hc, hmm, _⟩ := Wrap_of_type_ne_43 E row h43
  refine ⟨m, contentAfterDecompress E row, hm, ?_, hc, ?_, ?_, ?_, ?_⟩
  · simp [hmm, resolvedMedia, h1]
  · intro h49 b hb
    simp [contentAfterDecompress, h49, hb]
  · intro h49 hb
    simp [contentAfterDecompress, h49, hb]
  · intro h49
    simp [contentAfterDecompress, h49]
  · intro extra
    obtain ⟨m2, hm2, _, hmm2, _⟩ :=
      Wrap_of_type_ne_43 E { row with BytesExtra := extra } h43
    exact ⟨m2, hm2, by rw [hmm2, hmm]; rfl⟩

theorem Wrap_media_other_types_witness :
    ∃ m, Wrap sampleEnv { rowRich with BytesExtra := [3] } = WrapResult.returned m ∧
      m.MediaMessage = some
        { MediaPath := lit "from/content.mp4", Host := [], Payload := lit "<appmsg/>" } := by
  obtain ⟨m, c, hm, hmm, _, h49, _, _, _⟩ :=
    Wrap_media_other_types sampleEnv { rowRich with BytesExtra := [3] } (by decide)
      (by decide)
  refine ⟨m, hm, ?_⟩
  rw [hmm, h49 (by decide) (lit "<appmsg/>") (by decide)]
  decide

/-- C17. For every row of type 43 whose media resolve succeeds with `mm` and whose non-empty
auxiliary bytes decode to a map without an entry for tag 4, `Wrap` returns a `Message`
whose media variant is `mm` with its resolved path overwritten by the empty string. -/
theorem Wrap_video_path_missing_tag (E : Env) (row : MessageV3) (mm : MediaMessage)
    (mp : GoMap) (hT : row.Type_ = 43)
    (hR : E.NewMediaMessage 43 row.StrContent = some mm)
    (hB : row.BytesExtra ≠ []) (hP : ParseBytesExtra E row.BytesExtra = some mp)
    (h4 : GoMap.get? mp 4 = none) :
    ∃ m, Wrap E row = WrapResult.returned m ∧
      m.MediaMessage = some { mm with MediaPath := [] } := by
  obtain ⟨m, hm, hmm⟩ := Wrap_video E row mm mp hT hR hB hP
  rw [GoMap.get_of_get?_none mp 4 h4, videoPath_nil] at hmm
  exact ⟨m, hm, hmm⟩

theorem Wrap_video_path_missing_tag_witness :
    sampleEnv.NewMediaMessage 43 rowVideoNoPathTag.StrContent = some
        { MediaPath := lit "from/content.mp4", Host := [], Payload := lit "<msg/>" } ∧
      ∃ m, Wrap sampleEnv rowVideoNoPathTag = WrapResult.returned m ∧
        m.MediaMessage = some { MediaPath := [], Host := [], Payload := lit "<msg/>" } := by
  refine ⟨by decide, ?_⟩
  exact Wrap_video_path_missing_tag sampleEnv rowVideoNoPathTag
    { MediaPath := lit "from/content.mp4", Host := [], Payload := lit "<msg/>" }
    [(1, lit "bob")] (by decide) (by decide) (by decide) (by decide) (by decide)

/-- C18. `Wrap` does not give a content for every row of a type other than 49: on a video
row (type 43) whose content the media resolver rejects and whose non-empty auxiliary bytes
decode to a map, the call ends in the nil-pointer panic at
`_m.MediaMessage.MediaPath = path`, whatever `compressContent` holds, so no `Message` whose
content is the row's raw text content is returned. -/
theorem Wrap_content_lost_on_panic :
    rowChatRoomVideoBadContent.Type_ ≠ 49 ∧
      (∀ compressContent,
        Wrap sampleEnv { rowChatRoomVideoBadContent with CompressContent := compressContent } =
          WrapResult.panicNilDereference) ∧
      ¬ ∃ m, Wrap sampleEnv rowChatRoomVideoBadContent = WrapResult.returned m ∧
        m.Content = rowChatRoomVideoBadContent.StrContent := by
  have hp : Wrap sampleEnv rowChatRoomVideoBadContent = WrapResult.panicNilDereference := by
    decide
  refine ⟨by decide, ?_, ?_⟩
  · intro cc
    rw [Wrap_panics_iff]
    have hd : nilDereferenceCase sampleEnv rowChatRoomVideoBadContent = true := by decide
    exact hd
  · rintro ⟨m, hm, _⟩
    rw [hp] at hm
    cases hm

end Chatlog
